import Mathlib

/-!
Verification development for the ble_proxy transport-and-multiplexing
engine: a shallow embedding of the framing codec, chunk transport
adapter, request multiplexer and connection lifecycle retry logic of
windows-proxy/proxy.js, windows-proxy/ble-client.js,
windows-proxy/mock-ble-client.js and mock-ios-service/mock-ios.js,
together with theorems settling the frozen claims about them.
Bytes are modelled as natural numbers below 256 inside plain lists.
-/

set_option maxHeartbeats 1000000

namespace BLEProxy

/-- Little-endian 4-byte encoding of a frame length, as written by
Buffer.writeUInt32LE in sendChunkedData (ble-client.js), sendRequest
(mock-ble-client.js) and sendResponse (mock-ios.js). Node throws a
RangeError for values at or above 2 to the 32, so theorems carry that
bound as a hypothesis. -/
def toLE4 (n : Nat) : List Nat :=
  [n % 256, n / 256 % 256, n / 65536 % 256, n / 16777216 % 256]

/-- Little-endian read of the 4-byte length header, as done by
Buffer.readUInt32LE(0) in handleResponseData (ble-client.js,
mock-ble-client.js) and handleData (mock-ios.js). Out-of-range reads
yield 0 here, but every use is guarded by a length check of at least 4
bytes, exactly as in the source. -/
def readUInt32LE (d : List Nat) : Nat :=
  d.getD 0 0 + 256 * d.getD 1 0 + 65536 * d.getD 2 0 + 16777216 * d.getD 3 0

/-- Receive-side reassembly state: the fields receiving, expectedLength,
receivedChunks and receivedLength of BLEClient and MockBLEClient
(mock-ios.js keeps the same four fields per connection). On frame
completion the source resets receiving, receivedChunks and
receivedLength but leaves expectedLength at its old value. -/
structure RecvState where
  receiving : Bool
  expectedLength : Nat
  receivedChunks : List (List Nat)
  receivedLength : Nat
deriving DecidableEq

/-- Result of one handleResponseData call: framingError is the branch
that logs an invalid-header message and returns with the delivered bytes
dropped; incomplete buffers and waits; complete carries the payload
emitted through the response event. -/
inductive FeedResult
  | framingError
  | incomplete
  | complete (payload : List Nat)
deriving DecidableEq

/-- The completion check shared by both branches of handleResponseData
(ble-client.js lines 952-964): once receivedLength is at least
expectedLength, the first expectedLength bytes of the concatenated
chunks are emitted and the receiving state is reset; bytes beyond
expectedLength are not kept anywhere. -/
def finishCheck (s : RecvState) : RecvState × FeedResult :=
  if s.expectedLength ≤ s.receivedLength then
    (⟨false, s.expectedLength, [], 0⟩,
     .complete (s.receivedChunks.flatten.take s.expectedLength))
  else
    (s, .incomplete)

/-- Translation of handleResponseData (ble-client.js lines 927-965); the
mock client (mock-ble-client.js lines 187-227) and mock-ios handleData
(mock-ios.js lines 113-156) implement the same logic on the same
fields. -/
def handleResponseData (s : RecvState) (data : List Nat) : RecvState × FeedResult :=
  if s.receiving = false then
    if data.length < 4 then (s, .framingError)
    else
      let remaining := data.drop 4
      finishCheck
        { receiving := true
          expectedLength := readUInt32LE data
          receivedChunks := if 0 < remaining.length then [remaining] else []
          receivedLength := remaining.length }
  else
    finishCheck
      { s with
        receivedChunks := s.receivedChunks ++ [data]
        receivedLength := s.receivedLength + data.length }

/-- The reassembly state set up in the client constructors. -/
def initRecvState : RecvState := ⟨false, 0, [], 0⟩

/-- Feeding a sequence of transport deliveries one at a time into
handleResponseData, collecting every payload emitted through the
response event, in order. -/
def feedAll (s : RecvState) : List (List Nat) → RecvState × List (List Nat)
  | [] => (s, [])
  | d :: ds =>
    let step := handleResponseData s d
    let rest := feedAll step.1 ds
    (rest.1,
      match step.2 with
      | .complete p => p :: rest.2
      | _ => rest.2)

/-- One iteration of the send loop in sendChunkedData: the chunk written
to the request characteristic and the delay slept after the write (10 ms
while further bytes remain, none after the final chunk). -/
structure SendStep where
  chunk : List Nat
  delayAfterMs : Nat
deriving DecidableEq

/-- The for-loop of sendChunkedData (ble-client.js lines 909-922),
fuel-indexed to make the recursion structural: each iteration writes the
next slice of at most csize bytes and sleeps 10 ms when bytes follow.
With 0 < csize every iteration consumes at least one byte, so fuel equal
to the byte count is never exhausted; a csize of 0 would spin the JS
loop forever and every theorem assumes 0 < csize (the field is the
constant 20). -/
def sendChunkedStepsAux (csize : Nat) : Nat → List Nat → List SendStep
  | 0, _ => []
  | _, [] => []
  | fuel + 1, a :: l =>
    ⟨(a :: l).take csize, if csize < (a :: l).length then 10 else 0⟩ ::
      sendChunkedStepsAux csize fuel ((a :: l).drop csize)

/-- The write steps sendChunkedData performs on a byte sequence. -/
def sendChunkedSteps (csize : Nat) (l : List Nat) : List SendStep :=
  sendChunkedStepsAux csize l.length l

/-- maxChunkSize as set in the BLEClient constructor (ble-client.js
line 19). -/
def bleMaxChunkSize : Nat := 20

/-- sendChunkedData (ble-client.js lines 899-925): prepends the 4-byte
little-endian length header to the payload and writes the resulting wire
frame in chunks. -/
def sendChunkedData (csize : Nat) (data : List Nat) : List SendStep :=
  sendChunkedSteps csize (toLE4 data.length ++ data)

/-- Splitting a byte sequence into consecutive chunks of a given size:
exactly the chunk sequence the send loop writes, and the way the
chunk-reassembly property slices a frame before feeding it. -/
def chunkSplit (csize : Nat) (l : List Nat) : List (List Nat) :=
  (sendChunkedSteps csize l).map SendStep.chunk

/-- Model of zlib.gzip (external library, RFC 1952): every gzip member
begins with the magic bytes 0x1f 0x8b, and the encoding is lossless.
The model keeps exactly those two properties: the magic header followed
by the original bytes. -/
def gzipM (data : List Nat) : List Nat := 31 :: 139 :: data

/-- Model of zlib.gunzip (external library): the header check fails (the
callback receives an error, rejecting the promise) on any input that
does not begin with the gzip magic bytes, and the codec inverts gzipM on
its images. -/
def gunzipM (data : List Nat) : Option (List Nat) :=
  match data with
  | a :: b :: rest => if a = 31 ∧ b = 139 then some rest else none
  | _ => none

/-- config.compression.threshold (config.js): minimum byte count for
compression. -/
def compressionThreshold : Nat := 100

/-- compressData (proxy.js lines 342-357): payloads below the threshold,
or every payload when debug.skipCompression is set, are passed through
unchanged; larger payloads are gzip-compressed. -/
def compressData (threshold : Nat) (skipCompression : Bool) (data : List Nat) : List Nat :=
  if data.length < threshold ∨ skipCompression = true then data else gzipM data

/-- decompressData (proxy.js lines 359-366): unconditionally gunzips the
input; a gunzip error rejects the promise (none here). This function has
no fall-back to the raw bytes. -/
def decompressData (data : List Nat) : Option (List Nat) :=
  gunzipM data

/-- The result sink stored in a pendingRequests entry: the HTTP response
object (with its headersSent flag) for proxyHTTPRequest entries, or the
client socket for proxyHTTPSConnect entries. -/
inductive Sink
  | httpRes (headersSent : Bool)
  | connectSocket
deriving DecidableEq

/-- One entry of the pendingRequests map (proxy.js): its sink and the
Date.now() timestamp recorded when the request was stored. -/
structure PendingEntry where
  sink : Sink
  timestamp : Nat
deriving DecidableEq

/-- The BLEProxy state the claims touch: the pendingRequests map,
modelled as an association list in insertion order with distinct keys,
and the set of ids holding requestTimeouts entries. -/
structure MuxState where
  pendingRequests : List (Nat × PendingEntry)
  requestTimeouts : List Nat
deriving DecidableEq

/-- What a cancellation or timeout sweep does to one entry's sink:
writeHead(status) plus end on a response whose headers are not yet sent,
a raw status line plus end on a CONNECT socket, or nothing when the
response headers were already sent. -/
inductive Action
  | resWrite (status : Nat)
  | socketWrite (status : Nat)
  | skip
deriving DecidableEq

/-- The per-entry effect of clearAllPendingRequests (proxy.js lines
96-103): a 503 through whichever sink the entry holds. -/
def cancelAction : Sink → Action
  | .httpRes false => .resWrite 503
  | .httpRes true => .skip
  | .connectSocket => .socketWrite 503

/-- The per-entry effect of cleanupTimedOutRequests (proxy.js lines
76-83): a 408 through whichever sink the entry holds. -/
def timeoutAction : Sink → Action
  | .httpRes false => .resWrite 408
  | .httpRes true => .skip
  | .connectSocket => .socketWrite 408

/-- clearAllPendingRequests (proxy.js lines 95-112): answers every
pending entry with 503, deletes the requestTimeouts entry of every
pending id, and finally clears the whole pendingRequests table. -/
def clearAllPendingRequests (s : MuxState) : MuxState × List (Nat × Action) :=
  ({ pendingRequests := []
     requestTimeouts :=
       s.requestTimeouts.filter
         (fun t => !((s.pendingRequests.map Prod.fst).contains t)) },
   s.pendingRequests.map (fun e => (e.1, cancelAction e.2.sink)))

/-- The disconnected handler installed by setupBLEHandlers (proxy.js
lines 50-54): it runs clearAllPendingRequests. -/
def onDisconnected (s : MuxState) : MuxState × List (Nat × Action) :=
  clearAllPendingRequests s

/-- The sweep condition of cleanupTimedOutRequests: now minus the stored
timestamp exceeds the timeout. A JS negative difference (timestamp in
the future) is never greater than the timeout, which truncated Nat
subtraction reproduces. -/
def isExpired (now timeout : Nat) (e : Nat × PendingEntry) : Bool :=
  decide (timeout < now - e.2.timestamp)

/-- cleanupTimedOutRequests (proxy.js lines 68-93): answers each expired
entry with 408, removes it from the table and drops its requestTimeouts
entry; younger entries are left untouched. -/
def cleanupTimedOutRequests (now timeout : Nat) (s : MuxState) :
    MuxState × List (Nat × Action) :=
  let expired := s.pendingRequests.filter (isExpired now timeout)
  ({ pendingRequests := s.pendingRequests.filter (fun e => !(isExpired now timeout e))
     requestTimeouts :=
       s.requestTimeouts.filter (fun t => !((expired.map Prod.fst).contains t)) },
   expired.map (fun e => (e.1, timeoutAction e.2.sink)))

/-- setInterval period of the timeout sweep (setupCleanupTimer,
proxy.js lines 61-66). -/
def sweepIntervalMs : Nat := 30000

/-- config.proxy.timeout (config.js): the default request timeout. -/
def defaultRequestTimeoutMs : Nat := 30000

/-- The k-th firing time of the periodic sweep after proxy start;
setInterval fires first after one full period. -/
def sweepTime (k : Nat) : Nat := sweepIntervalMs * (k + 1)

/-- The first sweep tick at which a request submitted at t0 with the
given timeout satisfies the sweep condition: the least multiple of the
sweep interval strictly greater than t0 plus the timeout. -/
def firstResolutionTime (t0 timeout : Nat) : Nat :=
  sweepIntervalMs * ((t0 + timeout) / sweepIntervalMs + 1)

/-- Reconnect delay hard-coded in BLEClient.handleDisconnection
(ble-client.js line 859, setTimeout with 3000). -/
def bleReconnectDelayMs : Nat := 3000

/-- The BLEClient fields handleDisconnection clears. The class keeps no
counter of consecutive reconnect failures. -/
structure BleClientState where
  connected : Bool
  connecting : Bool
deriving DecidableEq

/-- BLEClient.handleDisconnection (ble-client.js lines 844-860): clears
the connection state, emits disconnected, and always arms the 3 s
reconnect timer; no attempt bound is consulted, so the returned flag
(whether a retry is scheduled) is true in every state. -/
def bleHandleDisconnection (_s : BleClientState) : BleClientState × Bool :=
  ({ connected := false, connecting := false }, true)

/-- reconnectDelay from the MockBLEClient constructor
(mock-ble-client.js line 24). -/
def mockReconnectDelayMs : Nat := 3000

/-- maxReconnectAttempts from the MockBLEClient constructor
(mock-ble-client.js line 27). -/
def mockMaxReconnectAttempts : Nat := 10

/-- The MockBLEClient fields handleDisconnection touches. -/
structure MockClientState where
  connected : Bool
  connecting : Bool
  receiving : Bool
  receivedChunks : List (List Nat)
  receivedLength : Nat
  connectionAttempts : Nat
deriving DecidableEq

/-- MockBLEClient.handleDisconnection (mock-ble-client.js lines
108-129): resets the connection and receive state, emits disconnected,
and schedules a reconnect only while connectionAttempts is below
maxReconnectAttempts. -/
def mockHandleDisconnection (s : MockClientState) : MockClientState × Bool :=
  ({ s with connected := false, connecting := false,
            receiving := false, receivedChunks := [], receivedLength := 0 },
   decide (s.connectionAttempts < mockMaxReconnectAttempts))

end BLEProxy

namespace BLEProxy

/-- Reading the little-endian header back gives the encoded length, for
lengths Node's writeUInt32LE accepts. -/
theorem readUInt32LE_append (L : Nat) (hL : L < 2 ^ 32) (rest : List Nat) :
    readUInt32LE (toLE4 L ++ rest) = L := by
  simp only [toLE4, List.cons_append, List.nil_append, readUInt32LE,
    List.getD_cons_zero, List.getD_cons_succ]
  omega

/-- Claim C1 counterexample: the two-byte payload 0x68 0x69 is below the
100-byte threshold, so compressData passes it through raw; decompressData
(an unconditional gunzip with no raw fall-back) then fails on it instead
of returning the payload, so the round trip does not hold on the
uncompressed path. -/
theorem C1_counterexample :
    decompressData (compressData compressionThreshold false [104, 105]) = none := by
  decide

/-- Claim C1 amended: the round trip decompressData after compressData
returns the payload on the compressed path (length at or above the
100-byte threshold, compression enabled); below the threshold
compressData passes the payload through raw, and decompressData then
fails on it whenever the payload does not itself begin with the gzip
magic bytes, so the uncompressed path does not round-trip. -/
theorem C1_roundtrip_amended (p : List Nat) :
    (compressionThreshold ≤ p.length →
      decompressData (compressData compressionThreshold false p) = some p) ∧
    (p.length < compressionThreshold →
      compressData compressionThreshold false p = p ∧
      (p.take 2 ≠ [31, 139] →
        decompressData (compressData compressionThreshold false p) = none)) := by
  constructor
  · intro h
    have hcond : ¬ (p.length < compressionThreshold ∨ false = true) := by
      simp [compressionThreshold] at h ⊢
      omega
    rw [compressData, if_neg hcond]
    simp [decompressData, gzipM, gunzipM]
  · intro h
    have hc : compressData compressionThreshold false p = p := by
      rw [compressData, if_pos (Or.inl h)]
    refine ⟨hc, fun hm => ?_⟩
    rw [hc]
    match p, hm with
    | [], _ => rfl
    | [a], _ => rfl
    | a :: b :: rest, hm =>
      have : ¬ (a = 31 ∧ b = 139) := by
        intro ⟨ha, hb⟩
        exact hm (by simp [ha, hb])
      simp [decompressData, gunzipM, this]

/-- Claim C1 witness: a 100-byte payload round-trips through the
compressed path; a 2-byte payload is passed through raw by
compressData. -/
theorem C1_roundtrip_witness :
    decompressData (compressData compressionThreshold false (List.replicate 100 7)) =
      some (List.replicate 100 7) ∧
    compressData compressionThreshold false [104, 105] = [104, 105] := by
  constructor
  · exact (C1_roundtrip_amended (List.replicate 100 7)).1 (by simp [compressionThreshold])
  · exact ((C1_roundtrip_amended [104, 105]).2 (by decide)).1

/-- Claim C6: offered fewer than 4 bytes while no frame is being
reassembled, handleResponseData reports the protocol violation (the
logged invalid-header branch, modelled as framingError), drops the
malformed bytes, and leaves the receive buffer in its reset state
(inactive, no chunks, zero received length); the function touches no
connection state, so the connection is not torn down. -/
theorem C6_short_first_delivery (e : Nat) (data : List Nat) (h : data.length < 4) :
    handleResponseData ⟨false, e, [], 0⟩ data = (⟨false, e, [], 0⟩, .framingError) := by
  simp [handleResponseData, h]

/-- Claim C6 witness at a concrete 2-byte delivery. -/
theorem C6_short_first_delivery_witness :
    handleResponseData ⟨false, 0, [], 0⟩ [7, 8] = (⟨false, 0, [], 0⟩, .framingError) :=
  C6_short_first_delivery 0 [7, 8] (by decide)

/-- A first delivery whose body already meets the declared length
completes the frame on that same call: the payload is the first
expectedLength bytes after the header and the buffer resets (only
expectedLength is retained, as in the source). -/
theorem handleResponseData_first_complete (s : RecvState) (data : List Nat)
    (hrecv : s.receiving = false) (h4 : 4 ≤ data.length)
    (hlen : readUInt32LE data ≤ (data.drop 4).length) :
    handleResponseData s data =
      (⟨false, readUInt32LE data, [], 0⟩,
       .complete ((data.drop 4).take (readUInt32LE data))) := by
  have hnl : ¬ data.length < 4 := Nat.not_lt.mpr h4
  have hlen2 : readUInt32LE data ≤ data.length - 4 := by
    simpa using hlen
  by_cases hpos : 4 < data.length
  · simp [handleResponseData, hrecv, hnl, finishCheck, hlen2, hpos]
  · have hdrop : data.drop 4 = [] := List.drop_eq_nil_of_le (by omega)
    have hzero : readUInt32LE data = 0 := by
      have hz := hlen
      rw [hdrop] at hz
      simpa using hz
    simp [handleResponseData, hrecv, hnl, finishCheck, hpos, hdrop, hzero]

/-- Claim C10: a first delivery consisting of exactly the 4-byte header
declaring length 0 immediately emits the empty payload and resets the
buffer; and in general, whenever the bytes following the header in the
first delivery already meet the declared length, the frame completes on
that same call. -/
theorem C10_zero_length_and_first_call :
    handleResponseData initRecvState [0, 0, 0, 0] = (⟨false, 0, [], 0⟩, .complete []) ∧
    ∀ (data : List Nat), 4 ≤ data.length →
      readUInt32LE data ≤ (data.drop 4).length →
      handleResponseData initRecvState data =
        (⟨false, readUInt32LE data, [], 0⟩,
         .complete ((data.drop 4).take (readUInt32LE data))) := by
  constructor
  · decide
  · intro data h4 hlen
    exact handleResponseData_first_complete initRecvState data rfl h4 hlen

/-- Claim C10 witness at a concrete first delivery carrying the whole
2-byte frame body. -/
theorem C10_zero_length_witness :
    handleResponseData initRecvState [2, 0, 0, 0, 7, 8] =
      (⟨false, 2, [], 0⟩, .complete [7, 8]) := by
  exact C10_zero_length_and_first_call.2 [2, 0, 0, 0, 7, 8] (by decide) (by decide)

/-- Claim C3 counterexample: one transport write carrying a complete
frame (payload 42) followed by a second complete frame (payload 43)
yields only the first payload; the surplus bytes are discarded, the
buffer resets to empty, and the second frame is lost, contradicting the
claim that surplus bytes feed the next frame's reassembly buffer. -/
theorem C3_counterexample :
    feedAll initRecvState [[1, 0, 0, 0, 42] ++ [1, 0, 0, 0, 43]] =
      (⟨false, 1, [], 0⟩, [[42]]) ∧
    (feedAll initRecvState [[1, 0, 0, 0, 42] ++ [1, 0, 0, 0, 43]]).2 ≠ [[42], [43]] := by
  decide

/-- Claim C3 amended: whenever a delivery completes a frame with surplus
bytes beyond expectedLength - whether it is the first delivery of the
frame (second part below uses the inactive state) or a subsequent
delivery completing an in-progress reassembly (first part, stated for
every active state whose receivedLength counts its buffered bytes) -
handleResponseData yields exactly the first expectedLength bytes as the
payload and discards the surplus: the buffer resets to empty rather than
seeding the next frame, so a write carrying the tail of one frame and
the head of the next loses the head. -/
theorem C3_surplus_discarded :
    (∀ (L r : Nat) (pre : List (List Nat)) (data : List Nat),
        r = pre.flatten.length → L < r + data.length →
        handleResponseData ⟨true, L, pre, r⟩ data =
          (⟨false, L, [], 0⟩,
           FeedResult.complete ((pre.flatten ++ data).take L))) ∧
    (∀ (s : RecvState) (data : List Nat),
        s.receiving = false → 4 ≤ data.length →
        readUInt32LE data < (data.drop 4).length →
        handleResponseData s data =
          (⟨false, readUInt32LE data, [], 0⟩,
           FeedResult.complete ((data.drop 4).take (readUInt32LE data)))) := by
  constructor
  · intro L r pre data hr hsur
    subst hr
    have hLe : L ≤ pre.flatten.length + data.length := Nat.le_of_lt hsur
    have hfl : (pre ++ [data]).flatten = pre.flatten ++ data := by simp
    have hstate : handleResponseData ⟨true, L, pre, pre.flatten.length⟩ data =
        finishCheck ⟨true, L, pre ++ [data], pre.flatten.length + data.length⟩ := by
      simp [handleResponseData]
    rw [hstate]
    simp only [finishCheck]
    rw [if_pos hLe, hfl]
  · intro s data hrecv h4 hsur
    exact handleResponseData_first_complete s data hrecv h4 (Nat.le_of_lt hsur)

/-- Claim C3 witness: a second delivery carrying the missing byte of an
in-progress 2-byte frame plus a surplus byte emits exactly the 2-byte
payload and resets the buffer; and a first delivery declaring length 1
but carrying six body bytes emits only the first body byte and resets
the buffer. -/
theorem C3_surplus_witness :
    handleResponseData ⟨true, 2, [[9]], 1⟩ [8, 99] =
      (⟨false, 2, [], 0⟩, FeedResult.complete (([9] ++ [8, 99]).take 2)) ∧
    handleResponseData initRecvState [1, 0, 0, 0, 42, 1, 0, 0, 0, 43] =
      (⟨false, 1, [], 0⟩, .complete [42]) := by
  constructor
  · exact C3_surplus_discarded.1 2 1 [[9]] [8, 99] (by decide) (by decide)
  · exact C3_surplus_discarded.2 initRecvState [1, 0, 0, 0, 42, 1, 0, 0, 0, 43]
      rfl (by decide) (by decide)

end BLEProxy

namespace BLEProxy

/-- The send loop produces nothing on an empty byte sequence. -/
theorem sendChunkedStepsAux_nil (csize fuel : Nat) :
    sendChunkedStepsAux csize fuel [] = [] := by
  cases fuel <;> rfl

/-- The fuel argument of the send loop is irrelevant once it covers the
byte count. -/
theorem sendChunkedStepsAux_congr (csize : Nat) (hc : 0 < csize) :
    ∀ (f1 : Nat) (l : List Nat) (f2 : Nat), l.length ≤ f1 → l.length ≤ f2 →
      sendChunkedStepsAux csize f1 l = sendChunkedStepsAux csize f2 l := by
  intro f1
  induction f1 with
  | zero =>
    intro l f2 h1 _
    have hl : l = [] := List.length_eq_zero.mp (Nat.le_zero.mp h1)
    subst hl
    rw [sendChunkedStepsAux_nil, sendChunkedStepsAux_nil]
  | succ n ih =>
    intro l f2 h1 h2
    cases l with
    | nil => rw [sendChunkedStepsAux_nil, sendChunkedStepsAux_nil]
    | cons a t =>
      cases f2 with
      | zero => simp at h2
      | succ m =>
        simp only [sendChunkedStepsAux]
        congr 1
        apply ih
        · simp only [List.length_drop, List.length_cons] at h1 ⊢
          omega
        · simp only [List.length_drop, List.length_cons] at h2 ⊢
          omega

/-- Concatenating the chunks of the send loop restores the byte
sequence. -/
theorem flatten_sendChunkedStepsAux (csize : Nat) (hc : 0 < csize) :
    ∀ (fuel : Nat) (l : List Nat), l.length ≤ fuel →
      ((sendChunkedStepsAux csize fuel l).map SendStep.chunk).flatten = l := by
  intro fuel
  induction fuel with
  | zero =>
    intro l hl
    have : l = [] := List.length_eq_zero.mp (Nat.le_zero.mp hl)
    subst this
    rfl
  | succ n ih =>
    intro l hl
    cases l with
    | nil => rfl
    | cons a t =>
      simp only [sendChunkedStepsAux, List.map_cons, List.flatten_cons]
      rw [ih ((a :: t).drop csize)
        (by simp only [List.length_drop, List.length_cons] at hl ⊢; omega)]
      exact List.take_append_drop csize (a :: t)

/-- Every chunk the send loop writes has at most csize bytes and is
nonempty. -/
theorem sendChunkedStepsAux_chunk_bounds (csize : Nat) (hc : 0 < csize) :
    ∀ (fuel : Nat) (l : List Nat), l.length ≤ fuel →
      ∀ st ∈ sendChunkedStepsAux csize fuel l,
        st.chunk.length ≤ csize ∧ st.chunk ≠ [] := by
  intro fuel
  induction fuel with
  | zero =>
    intro l hl st hst
    have : l = [] := List.length_eq_zero.mp (Nat.le_zero.mp hl)
    subst this
    simp [sendChunkedStepsAux_nil] at hst
  | succ n ih =>
    intro l hl st hst
    cases l with
    | nil => simp [sendChunkedStepsAux_nil] at hst
    | cons a t =>
      simp only [sendChunkedStepsAux, List.mem_cons] at hst
      rcases hst with h | h
      · subst h
        constructor
        · simp only [List.length_take, List.length_cons]
          omega
        · obtain ⟨k, hk⟩ := Nat.exists_eq_succ_of_ne_zero (Nat.pos_iff_ne_zero.mp hc)
          subst hk
          simp [List.take]
      · exact ih ((a :: t).drop csize) (by simp only [List.length_drop]; omega) st h

/-- The send loop always produces at least one step on a nonempty byte
sequence. -/
theorem sendChunkedStepsAux_ne_nil (csize : Nat) :
    ∀ (fuel : Nat) (a : Nat) (t : List Nat), (a :: t).length ≤ fuel →
      sendChunkedStepsAux csize fuel (a :: t) ≠ [] := by
  intro fuel a t hl
  cases fuel with
  | zero => simp at hl
  | succ n => simp [sendChunkedStepsAux]

/-- The delays of the send loop: 10 ms after every chunk except the
last. -/
theorem sendChunkedStepsAux_delays (csize : Nat) (hc : 0 < csize) :
    ∀ (fuel : Nat) (l : List Nat), l ≠ [] → l.length ≤ fuel →
      (sendChunkedStepsAux csize fuel l).map SendStep.delayAfterMs =
        List.replicate ((sendChunkedStepsAux csize fuel l).length - 1) 10 ++ [0] := by
  intro fuel
  induction fuel with
  | zero =>
    intro l hne hl
    exact absurd (List.length_eq_zero.mp (Nat.le_zero.mp hl)) hne
  | succ n ih =>
    intro l hne hl
    cases l with
    | nil => exact absurd rfl hne
    | cons a t =>
      by_cases hrest : csize < (a :: t).length
      · have hdne : (a :: t).drop csize ≠ [] := by
          intro hcon
          have h2 := congrArg List.length hcon
          have h3 : csize < t.length + 1 := by simpa using hrest
          simp only [List.length_drop, List.length_cons, List.length_nil] at h2
          omega
        have hdle : ((a :: t).drop csize).length ≤ n := by
          simp only [List.length_drop, List.length_cons] at *
          omega
        obtain ⟨b, u, hbu⟩ := List.exists_cons_of_ne_nil hdne
        have htail := ih ((a :: t).drop csize) hdne hdle
        have htne : sendChunkedStepsAux csize n ((a :: t).drop csize) ≠ [] := by
          rw [hbu]
          exact sendChunkedStepsAux_ne_nil csize n b u (by rw [← hbu]; exact hdle)
        obtain ⟨k, hk⟩ :=
          Nat.exists_eq_succ_of_ne_zero
            (fun h0 => htne (List.length_eq_zero.mp h0))
        have hrest2 : csize < t.length + 1 := by simpa using hrest
        simp only [sendChunkedStepsAux, List.map_cons, List.length_cons]
        rw [if_pos hrest2, htail, hk]
        simp [List.replicate_succ]
      · have hdnil : (a :: t).drop csize = [] :=
          List.drop_eq_nil_of_le (Nat.not_lt.mp hrest)
        have hrest2 : ¬ csize < t.length + 1 := by simpa using hrest
        simp only [sendChunkedStepsAux, List.map_cons, List.length_cons]
        rw [if_neg hrest2, hdnil, sendChunkedStepsAux_nil]
        simp

/-- Claim C7: for every payload whose length Node can encode, the send
path emits the wire frame consisting of the 4-byte little-endian length
header followed by the payload, split into in-order chunks of at most
maxChunkSize (20) bytes whose concatenation reproduces the frame byte
for byte, with a 10 ms delay after every write except the last. -/
theorem C7_chunking (data : List Nat) (h : data.length < 2 ^ 32) :
    ((sendChunkedData bleMaxChunkSize data).map SendStep.chunk).flatten =
        toLE4 data.length ++ data ∧
    (∀ st ∈ sendChunkedData bleMaxChunkSize data,
        st.chunk.length ≤ bleMaxChunkSize ∧ st.chunk ≠ []) ∧
    (sendChunkedData bleMaxChunkSize data).map SendStep.delayAfterMs =
        List.replicate ((sendChunkedData bleMaxChunkSize data).length - 1) 10 ++ [0] ∧
    (toLE4 data.length).length = 4 ∧
    readUInt32LE (toLE4 data.length ++ data) = data.length ∧
    (toLE4 data.length ++ data).drop 4 = data := by
  have hc : 0 < bleMaxChunkSize := by decide
  refine ⟨?_, ?_, ?_, ?_, ?_, ?_⟩
  · exact flatten_sendChunkedStepsAux bleMaxChunkSize hc _ _ le_rfl
  · exact sendChunkedStepsAux_chunk_bounds bleMaxChunkSize hc _ _ le_rfl
  · exact sendChunkedStepsAux_delays bleMaxChunkSize hc _ _ (by simp [toLE4]) le_rfl
  · rfl
  · exact readUInt32LE_append data.length h data
  · rw [show 4 = (toLE4 data.length).length from rfl]
    exact List.drop_left _ _

/-- Claim C7 witness at a 30-byte payload (two full chunks of 20 bytes
minus the header, so the delay pattern is visible). -/
theorem C7_chunking_witness :
    ((sendChunkedData bleMaxChunkSize (List.range 30)).map SendStep.chunk).flatten =
        toLE4 (List.range 30).length ++ List.range 30 ∧
    (∀ st ∈ sendChunkedData bleMaxChunkSize (List.range 30),
        st.chunk.length ≤ bleMaxChunkSize ∧ st.chunk ≠ []) ∧
    (sendChunkedData bleMaxChunkSize (List.range 30)).map SendStep.delayAfterMs =
        List.replicate ((sendChunkedData bleMaxChunkSize (List.range 30)).length - 1) 10 ++ [0] ∧
    (toLE4 (List.range 30).length).length = 4 ∧
    readUInt32LE (toLE4 (List.range 30).length ++ List.range 30) = (List.range 30).length ∧
    (toLE4 (List.range 30).length ++ List.range 30).drop 4 = List.range 30 :=
  C7_chunking (List.range 30) (by decide)

end BLEProxy

namespace BLEProxy

/-- Splitting an empty byte sequence yields no chunks. -/
theorem chunkSplit_nil (csize : Nat) : chunkSplit csize [] = [] := rfl

/-- One unfolding step of chunkSplit on a nonempty byte sequence. -/
theorem chunkSplit_expand (csize : Nat) (hc : 0 < csize) (l : List Nat) (hl : l ≠ []) :
    chunkSplit csize l = l.take csize :: chunkSplit csize (l.drop csize) := by
  cases l with
  | nil => exact absurd rfl hl
  | cons a t =>
    simp only [chunkSplit, sendChunkedSteps, List.length_cons, sendChunkedStepsAux,
      List.map_cons]
    congr 2
    apply sendChunkedStepsAux_congr csize hc
    · simp only [List.length_drop, List.length_cons]
      omega
    · exact le_rfl

/-- Concatenating the chunks of a split restores the byte sequence. -/
theorem flatten_chunkSplit (csize : Nat) (hc : 0 < csize) (l : List Nat) :
    (chunkSplit csize l).flatten = l :=
  flatten_sendChunkedStepsAux csize hc l.length l le_rfl

/-- Every chunk of a split is nonempty. -/
theorem chunkSplit_mem_ne_nil (csize : Nat) (hc : 0 < csize) (l : List Nat) :
    ∀ ch ∈ chunkSplit csize l, ch ≠ [] := by
  intro ch hch
  simp only [chunkSplit, sendChunkedSteps, List.mem_map] at hch
  obtain ⟨st, hst, hrfl⟩ := hch
  subst hrfl
  exact (sendChunkedStepsAux_chunk_bounds csize hc l.length l le_rfl st hst).2

/-- Feeding, into an active reassembly state, nonempty deliveries that
together carry exactly the missing bytes completes the frame exactly at
the last delivery and emits the concatenation of everything received. -/
theorem feedAll_run (L : Nat) :
    ∀ (cs : List (List Nat)), (∀ ch ∈ cs, ch ≠ []) →
      ∀ (pre : List (List Nat)),
        pre.flatten.length < L →
        pre.flatten.length + cs.flatten.length = L →
        feedAll ⟨true, L, pre, pre.flatten.length⟩ cs =
          (⟨false, L, [], 0⟩, [pre.flatten ++ cs.flatten]) := by
  intro cs
  induction cs with
  | nil =>
    intro hne pre hr htot
    simp only [List.flatten_nil, List.length_nil, Nat.add_zero] at htot
    omega
  | cons d ds ih =>
    intro hne pre hr htot
    have hstate : handleResponseData ⟨true, L, pre, pre.flatten.length⟩ d =
        finishCheck ⟨true, L, pre ++ [d], pre.flatten.length + d.length⟩ := by
      simp [handleResponseData]
    by_cases hLe : L ≤ pre.flatten.length + d.length
    · have hdsnil : ds = [] := by
        cases ds with
        | nil => rfl
        | cons e es =>
          have he : e ≠ [] := hne e (by simp)
          have hel : 0 < e.length := List.length_pos.mpr he
          simp only [List.flatten_cons, List.length_append] at htot
          omega
      subst hdsnil
      have htot2 : pre.flatten.length + d.length = L := by simpa using htot
      have hfl : (pre ++ [d]).flatten = pre.flatten ++ d := by simp
      have hlen2 : (pre.flatten ++ d).length ≤ L := by
        simp only [List.length_append]
        omega
      have hfin : finishCheck ⟨true, L, pre ++ [d], pre.flatten.length + d.length⟩ =
          (⟨false, L, [], 0⟩, .complete (pre.flatten ++ d)) := by
        simp only [finishCheck]
        rw [if_pos hLe, hfl, List.take_of_length_le hlen2]
      simp only [feedAll, hstate, hfin]
      simp
    · have hlt : pre.flatten.length + d.length < L := Nat.not_le.mp hLe
      have hfin : finishCheck ⟨true, L, pre ++ [d], pre.flatten.length + d.length⟩ =
          (⟨true, L, pre ++ [d], pre.flatten.length + d.length⟩, .incomplete) := by
        simp only [finishCheck]
        rw [if_neg hLe]
      have hpre2 : (pre ++ [d]).flatten.length = pre.flatten.length + d.length := by simp
      have ihapp := ih (fun ch hch => hne ch (by simp [hch])) (pre ++ [d])
        (by rw [hpre2]; exact hlt)
        (by
          rw [hpre2]
          simp only [List.flatten_cons, List.length_append] at htot ⊢
          omega)
      rw [hpre2] at ihapp
      simp only [feedAll, hstate, hfin, ihapp]
      simp

/-- Variant of feedAll_run taking the receivedLength field as an
explicit argument equal to the buffered byte count. -/
theorem feedAll_run2 (L : Nat) (cs pre : List (List Nat)) (r : Nat)
    (hne : ∀ ch ∈ cs, ch ≠ []) (hreq : r = pre.flatten.length)
    (hr : r < L) (htot : r + cs.flatten.length = L) :
    feedAll ⟨true, L, pre, r⟩ cs = (⟨false, L, [], 0⟩, [pre.flatten ++ cs.flatten]) := by
  subst hreq
  exact feedAll_run L cs hne pre hr htot

/-- A first delivery whose body does not yet meet the declared length
buffers the body bytes and waits. -/
theorem handleResponseData_first_incomplete (s : RecvState) (data : List Nat)
    (hrecv : s.receiving = false) (h4 : 4 ≤ data.length)
    (hlen : (data.drop 4).length < readUInt32LE data) :
    handleResponseData s data =
      (⟨true, readUInt32LE data,
        if 0 < (data.drop 4).length then [data.drop 4] else [],
        (data.drop 4).length⟩, .incomplete) := by
  have hnl : ¬ data.length < 4 := Nat.not_lt.mpr h4
  have hlen2 : ¬ readUInt32LE data ≤ data.length - 4 := by
    simp only [List.length_drop] at hlen
    omega
  simp [handleResponseData, hrecv, hnl, finishCheck, hlen2]

/-- Claim C2 counterexample: for the one-byte payload 42 and chunk size
1 (the claim ranges over chunk sizes from 1 up), every chunk is shorter
than the 4 bytes the header branch demands, each feed call drops its
chunk with the invalid-header error, and no payload is ever produced. -/
theorem C2_counterexample :
    feedAll initRecvState (chunkSplit 1 (toLE4 ([42] : List Nat).length ++ [42])) =
      (initRecvState, []) ∧
    (feedAll initRecvState (chunkSplit 1 (toLE4 ([42] : List Nat).length ++ [42]))).2 ≠
      [[42]] := by
  decide

/-- Claim C2 amended: splitting the encoded frame (4-byte little-endian
header plus payload) into chunks of any size from 4 (not 1: sizes 1-3
lose the frame, see the counterexample) to the frame length and feeding
them one at a time yields exactly one reconstructed payload equal to the
original payload, leaving the buffer reset. -/
theorem C2_chunk_reassembly_amended (p : List Nat) (c : Nat)
    (hp : p.length < 2 ^ 32) (hc4 : 4 ≤ c) (hcle : c ≤ 4 + p.length) :
    feedAll initRecvState (chunkSplit c (toLE4 p.length ++ p)) =
      (⟨false, p.length, [], 0⟩, [p]) := by
  have hc0 : 0 < c := by omega
  have hflen : (toLE4 p.length ++ p).length = 4 + p.length := by
    simp [toLE4]
    omega
  have hfne : toLE4 p.length ++ p ≠ [] := by simp [toLE4]
  have htake : (toLE4 p.length ++ p).take c = toLE4 p.length ++ p.take (c - 4) := by
    rw [List.take_append_eq_append_take]
    congr 1
    exact List.take_of_length_le (by simp [toLE4]; omega)
  have hdropF : (toLE4 p.length ++ p).drop c = p.drop (c - 4) := by
    rw [List.drop_append_eq_append_drop]
    rw [List.drop_eq_nil_of_le (by simp [toLE4]; omega)]
    simp [toLE4]
  have hread : readUInt32LE ((toLE4 p.length ++ p).take c) = p.length := by
    rw [htake]
    exact readUInt32LE_append p.length hp _
  have htlen : ((toLE4 p.length ++ p).take c).length = c := by
    simp only [List.length_take, hflen]
    omega
  have hd4 : ((toLE4 p.length ++ p).take c).drop 4 = p.take (c - 4) := by
    rw [htake, List.drop_append_eq_append_drop]
    have h1 : (toLE4 p.length).drop 4 = [] := by
      apply List.drop_eq_nil_of_le
      simp [toLE4]
    have h2 : 4 - (toLE4 p.length).length = 0 := by simp [toLE4]
    rw [h1, h2]
    simp
  rw [chunkSplit_expand c hc0 _ hfne, hdropF]
  by_cases hfull : p.length ≤ c - 4
  · have hceq : c - 4 = p.length := by omega
    have hpt : p.take (c - 4) = p := by rw [hceq]; exact List.take_length p
    have hdnil : p.drop (c - 4) = [] := by rw [hceq]; exact List.drop_length p
    have hstep := handleResponseData_first_complete initRecvState
      ((toLE4 p.length ++ p).take c) rfl (by rw [htlen]; omega)
      (by rw [hread, hd4, hpt])
    rw [hread, hd4, hpt, List.take_length] at hstep
    rw [hdnil, chunkSplit_nil]
    simp only [feedAll, hstep]
  · have hlt : c - 4 < p.length := Nat.not_le.mp hfull
    have hptl : (p.take (c - 4)).length = c - 4 := by
      simp only [List.length_take]
      omega
    have hstep := handleResponseData_first_incomplete initRecvState
      ((toLE4 p.length ++ p).take c) rfl (by rw [htlen]; omega)
      (by rw [hread, hd4, hptl]; omega)
    rw [hread, hd4, hptl] at hstep
    have hcsne : ∀ ch ∈ chunkSplit c (p.drop (c - 4)), ch ≠ [] :=
      chunkSplit_mem_ne_nil c hc0 _
    have hcsfl : (chunkSplit c (p.drop (c - 4))).flatten = p.drop (c - 4) :=
      flatten_chunkSplit c hc0 _
    by_cases h4c : 0 < c - 4
    · rw [if_pos h4c] at hstep
      have hrun := feedAll_run2 p.length (chunkSplit c (p.drop (c - 4)))
        [p.take (c - 4)] (c - 4) hcsne
        (by simp [hptl]) hlt
        (by rw [hcsfl, List.length_drop]; omega)
      simp only [feedAll, hstep, hrun]
      simp [hcsfl, List.take_append_drop]
    · have hc4eq : c - 4 = 0 := by omega
      rw [if_neg h4c, hc4eq] at hstep
      have hrun := feedAll_run2 p.length (chunkSplit c (p.drop (c - 4)))
        [] 0 hcsne (by simp) (by omega)
        (by rw [hcsfl, List.length_drop]; omega)
      simp only [feedAll, hstep, hrun]
      simp [flatten_chunkSplit c hc0, hc4eq]

/-- Claim C2 witness: the frame of the one-byte payload 42 split into
4-byte chunks reassembles to exactly that payload. -/
theorem C2_chunk_reassembly_witness :
    feedAll initRecvState (chunkSplit 4 (toLE4 ([42] : List Nat).length ++ [42])) =
      (⟨false, 1, [], 0⟩, [[42]]) := by
  exact C2_chunk_reassembly_amended [42] 4 (by decide) (by decide) (by decide)

end BLEProxy

namespace BLEProxy

/-- Claim C4: firing the disconnected event resolves every pending
request with a 503 service-unavailable outcome (through its response
object or CONNECT socket; the hypothesis states each entry is genuinely
pending, its headers not yet sent), leaves the pending table empty, and
removes every pending id from the requestTimeouts table. -/
theorem C4_bulk_cancel (s : MuxState)
    (h : ∀ e ∈ s.pendingRequests, e.2.sink ≠ Sink.httpRes true) :
    (onDisconnected s).1.pendingRequests = [] ∧
    (onDisconnected s).2.length = s.pendingRequests.length ∧
    (onDisconnected s).2.map Prod.fst = s.pendingRequests.map Prod.fst ∧
    (∀ a ∈ (onDisconnected s).2,
        a.2 = Action.resWrite 503 ∨ a.2 = Action.socketWrite 503) ∧
    (∀ e ∈ s.pendingRequests, e.1 ∉ (onDisconnected s).1.requestTimeouts) := by
  refine ⟨rfl, by simp [onDisconnected, clearAllPendingRequests],
    by simp [onDisconnected, clearAllPendingRequests], ?_, ?_⟩
  · intro a ha
    simp only [onDisconnected, clearAllPendingRequests, List.mem_map] at ha
    obtain ⟨e, he, hrfl⟩ := ha
    subst hrfl
    have hs := h e he
    match hsink : e.2.sink with
    | Sink.httpRes false => left; simp [cancelAction, hsink]
    | Sink.httpRes true => exact absurd hsink hs
    | Sink.connectSocket => right; simp [cancelAction, hsink]
  · intro e he hmem
    simp only [onDisconnected, clearAllPendingRequests, List.mem_filter,
      Bool.not_eq_true'] at hmem
    have hm : e.1 ∈ s.pendingRequests.map Prod.fst :=
      List.mem_map_of_mem Prod.fst he
    rw [← List.elem_iff] at hm
    have hc : (s.pendingRequests.map Prod.fst).contains e.1 = true := hm
    rw [hmem.2] at hc
    exact Bool.false_ne_true hc

/-- Claim C4 witness: a table with one pending HTTP request and one
pending CONNECT request, plus a timeout entry for id 1, is fully
cancelled with 503 outcomes on disconnect. -/
theorem C4_bulk_cancel_witness :
    (onDisconnected ⟨[(1, ⟨Sink.httpRes false, 0⟩), (2, ⟨Sink.connectSocket, 5⟩)],
        [1]⟩).1.pendingRequests = [] ∧
    (onDisconnected ⟨[(1, ⟨Sink.httpRes false, 0⟩), (2, ⟨Sink.connectSocket, 5⟩)],
        [1]⟩).2.length =
      ([(1, ⟨Sink.httpRes false, 0⟩), (2, ⟨Sink.connectSocket, 5⟩)] :
        List (Nat × PendingEntry)).length ∧
    (onDisconnected ⟨[(1, ⟨Sink.httpRes false, 0⟩), (2, ⟨Sink.connectSocket, 5⟩)],
        [1]⟩).2.map Prod.fst =
      ([(1, ⟨Sink.httpRes false, 0⟩), (2, ⟨Sink.connectSocket, 5⟩)] :
        List (Nat × PendingEntry)).map Prod.fst ∧
    (∀ a ∈ (onDisconnected ⟨[(1, ⟨Sink.httpRes false, 0⟩),
        (2, ⟨Sink.connectSocket, 5⟩)], [1]⟩).2,
        a.2 = Action.resWrite 503 ∨ a.2 = Action.socketWrite 503) ∧
    (∀ e ∈ ([(1, ⟨Sink.httpRes false, 0⟩), (2, ⟨Sink.connectSocket, 5⟩)] :
        List (Nat × PendingEntry)),
        e.1 ∉ (onDisconnected ⟨[(1, ⟨Sink.httpRes false, 0⟩),
          (2, ⟨Sink.connectSocket, 5⟩)], [1]⟩).1.requestTimeouts) :=
  C4_bulk_cancel ⟨[(1, ⟨Sink.httpRes false, 0⟩), (2, ⟨Sink.connectSocket, 5⟩)], [1]⟩
    (by decide)

/-- Claim C5 counterexample: a request with a 100 ms timeout submitted
at proxy start is first reachable by the periodic sweep at its first
tick, 30000 ms (where it is indeed removed with a 408 outcome); it is
not resolved at roughly 100 ms, since no sweep fires at or before 200 ms
and no per-request timer is ever armed (requestTimeouts is never
populated in the source). -/
theorem C5_counterexample :
    (cleanupTimedOutRequests (sweepTime 0) 100
        ⟨[(1, ⟨Sink.httpRes false, 0⟩)], []⟩).1.pendingRequests = [] ∧
    (cleanupTimedOutRequests (sweepTime 0) 100
        ⟨[(1, ⟨Sink.httpRes false, 0⟩)], []⟩).2 = [(1, Action.resWrite 408)] ∧
    sweepTime 0 = 30000 ∧
    firstResolutionTime 0 100 = 30000 ∧
    ¬ firstResolutionTime 0 100 ≤ 200 := by
  decide

/-- Claim C5 amended: the sweep (run every 30 s, default timeout 30 s)
resolves with a 408 timeout outcome exactly those pending requests whose
age strictly exceeds the configured timeout and removes them, leaving
every younger request untouched; 408 is distinct from the 503 used on
disconnect; but a request with a 100 ms timeout is resolved only at the
next sweep tick (30 s after start at the earliest), not at roughly
100 ms. -/
theorem C5_sweep_amended (now timeout : Nat) (s : MuxState)
    (hv : ∀ e ∈ s.pendingRequests, e.2.sink ≠ Sink.httpRes true) :
    (∀ e ∈ s.pendingRequests, timeout < now - e.2.timestamp →
        e ∉ (cleanupTimedOutRequests now timeout s).1.pendingRequests ∧
        (e.1, timeoutAction e.2.sink) ∈ (cleanupTimedOutRequests now timeout s).2) ∧
    (∀ e ∈ s.pendingRequests, now - e.2.timestamp ≤ timeout →
        e ∈ (cleanupTimedOutRequests now timeout s).1.pendingRequests) ∧
    (∀ a ∈ (cleanupTimedOutRequests now timeout s).2,
        a.2 = Action.resWrite 408 ∨ a.2 = Action.socketWrite 408) ∧
    sweepIntervalMs = 30000 ∧ defaultRequestTimeoutMs = 30000 ∧
    firstResolutionTime 0 100 = sweepTime 0 ∧ sweepTime 0 = 30000 := by
  refine ⟨?_, ?_, ?_, rfl, rfl, rfl, rfl⟩
  · intro e he hex
    constructor
    · intro hmem
      simp only [cleanupTimedOutRequests, List.mem_filter, Bool.not_eq_true',
        isExpired] at hmem
      have hfalse := hmem.2
      simp only [decide_eq_false_iff_not] at hfalse
      exact hfalse hex
    · simp only [cleanupTimedOutRequests, List.mem_map]
      exact ⟨e, List.mem_filter.mpr ⟨he, by simp [isExpired, hex]⟩, rfl⟩
  · intro e he hyoung
    simp only [cleanupTimedOutRequests, List.mem_filter, Bool.not_eq_true']
    exact ⟨he, by simp [isExpired]; omega⟩
  · intro a ha
    simp only [cleanupTimedOutRequests, List.mem_map] at ha
    obtain ⟨e, he, hrfl⟩ := ha
    subst hrfl
    have hs := hv e (List.mem_filter.mp he).1
    match hsink : e.2.sink with
    | Sink.httpRes false => left; simp [timeoutAction, hsink]
    | Sink.httpRes true => exact absurd hsink hs
    | Sink.connectSocket => right; simp [timeoutAction, hsink]

/-- Claim C5 witness: a sweep at 31 s with a 30 s timeout removes the
request submitted at time 0 with a 408 outcome and keeps the request
submitted at 2 s. -/
theorem C5_sweep_witness :
    (∀ e ∈ ([(1, ⟨Sink.httpRes false, 0⟩), (2, ⟨Sink.connectSocket, 2000⟩)] :
        List (Nat × PendingEntry)), 30000 < 31000 - e.2.timestamp →
        e ∉ (cleanupTimedOutRequests 31000 30000
          ⟨[(1, ⟨Sink.httpRes false, 0⟩), (2, ⟨Sink.connectSocket, 2000⟩)],
            []⟩).1.pendingRequests ∧
        (e.1, timeoutAction e.2.sink) ∈ (cleanupTimedOutRequests 31000 30000
          ⟨[(1, ⟨Sink.httpRes false, 0⟩), (2, ⟨Sink.connectSocket, 2000⟩)], []⟩).2) ∧
    (∀ e ∈ ([(1, ⟨Sink.httpRes false, 0⟩), (2, ⟨Sink.connectSocket, 2000⟩)] :
        List (Nat × PendingEntry)), 31000 - e.2.timestamp ≤ 30000 →
        e ∈ (cleanupTimedOutRequests 31000 30000
          ⟨[(1, ⟨Sink.httpRes false, 0⟩), (2, ⟨Sink.connectSocket, 2000⟩)],
            []⟩).1.pendingRequests) ∧
    (∀ a ∈ (cleanupTimedOutRequests 31000 30000
        ⟨[(1, ⟨Sink.httpRes false, 0⟩), (2, ⟨Sink.connectSocket, 2000⟩)], []⟩).2,
        a.2 = Action.resWrite 408 ∨ a.2 = Action.socketWrite 408) ∧
    sweepIntervalMs = 30000 ∧ defaultRequestTimeoutMs = 30000 ∧
    firstResolutionTime 0 100 = sweepTime 0 ∧ sweepTime 0 = 30000 :=
  C5_sweep_amended 31000 30000
    ⟨[(1, ⟨Sink.httpRes false, 0⟩), (2, ⟨Sink.connectSocket, 2000⟩)], []⟩ (by decide)

/-- Claim C8 counterexample: the radio-link strategy never gives up -
there is no state in which its disconnection handler fails to schedule a
reconnect, refuting the claim that both strategies retry at most a
bounded number of consecutive failures before requiring an explicit
restart. -/
theorem C8_counterexample :
    ¬ ∃ s : BleClientState, (bleHandleDisconnection s).2 = false := by
  rintro ⟨s, h⟩
  simp [bleHandleDisconnection] at h

/-- Claim C8 amended: both strategies retry after the fixed 3 s delay,
but only the socket-link (mock) strategy bounds retries - it reconnects
only while connectionAttempts is below 10 - while the radio-link
strategy schedules a reconnect on every disconnection without bound. -/
theorem C8_retry_amended :
    bleReconnectDelayMs = 3000 ∧ mockReconnectDelayMs = 3000 ∧
    mockMaxReconnectAttempts = 10 ∧
    (∀ s : BleClientState, (bleHandleDisconnection s).2 = true) ∧
    (∀ s : MockClientState,
        ((mockHandleDisconnection s).2 = true ↔
          s.connectionAttempts < mockMaxReconnectAttempts)) := by
  refine ⟨rfl, rfl, rfl, fun s => rfl, fun s => ?_⟩
  simp [mockHandleDisconnection]

end BLEProxy
